import Mathlib

/-!
Chunked video upload (twitter.go): embedding and properties.

The orchestrator of `twitter.go` talks to the platform through one HTTP
client.  The embedding threads an explicit trace of observable events (HTTP
requests issued and calls of `sleep`) through every function; a function of
the source that returns `error` returns here a pair of the error (`none` is
Go's `nil`) and the trace extended by the events it caused.

Library behaviour that the source relies on is kept abstract:

* `client.Do` followed by `ioutil.ReadAll(res.Body)` is the field `Do` of
  `HttpClient`; the answer may depend on everything that happened before;
* `json.Unmarshal` into the two response structs is the structure `Json`.

`http.NewRequest` with the constant method and URL of the source, and writes
to the in-memory multipart buffer, do not fail and are not modelled as
failure points.  Log lines and progress messages on standard output are not
events.
-/

namespace TwitterVideo

/-- Go `error` values.  `new msg` is `errors.New(msg)`; `external c` stands for
any error produced by a library call (transport, body read, JSON decoding). -/
inductive GoError where
  | new (msg : String)
  | external (code : Nat)
  deriving DecidableEq, Repr

/-- The struct `mediaInitResponse`. -/
structure mediaInitResponse where
  MediaID : Nat
  MediaIDString : String
  ExpiresAfterSecs : Nat
  deriving DecidableEq, Repr

/-- The struct `mediaFinalProcessingInfo`. -/
structure mediaFinalProcessingInfo where
  CheckAfterSeconds : Int
  State : String
  deriving DecidableEq, Repr

/-- The struct `mediaStatusResponse`. -/
structure mediaStatusResponse where
  MediaID : Nat
  MediaIDString : String
  MediaKey : String
  Size : Int
  ExpiresAfterSecs : Nat
  ProcessingInfo : mediaFinalProcessingInfo
  deriving DecidableEq, Repr

/-- The requests the orchestrator builds, with the fields that vary
(the constant form fields, method and URL are determined by the constructor). -/
inductive Request where
  | init (totalBytes : Nat)
  | append (mediaID : Nat) (segmentIndex : Nat) (segment : List UInt8)
  | finalize (mediaID : Nat)
  | status (mediaID : Nat)
  | updateStatus (text : String) (mediaID : Nat)
  deriving DecidableEq

/-- Observable events: an HTTP request handed to `client.Do`, or a call
`sleep(seconds)`. -/
inductive Event where
  | request (r : Request)
  | sleep (seconds : Int)
  deriving DecidableEq

/-- Events in the order in which they happened. -/
abbrev Trace := List Event

/-- What `client.Do` succeeded with, after `ioutil.ReadAll(res.Body)`: the bytes
read and the error of the read, if any. -/
structure Response where
  body : String
  readErr : Option GoError
  deriving DecidableEq, Repr

/-- The HTTP client: the answer to a request may depend on the whole history. -/
structure HttpClient where
  Do : Trace → Request → Except GoError Response

/-- The struct `Twitter`. -/
structure Twitter where
  client : HttpClient

/-- The two uses of `json.Unmarshal` in the source. -/
structure Json where
  unmarshalInit : String → Except GoError mediaInitResponse
  unmarshalStatus : String → Except GoError mediaStatusResponse

/-- The local constant `step` of `mediaAppend`. -/
def step : Nat := 500 * 1024

/-- Go slice expression `media[lo:hi]` (for `lo ≤ hi ≤ len(media)`). -/
def slice (media : List UInt8) (lo hi : Nat) : List UInt8 :=
  (media.drop lo).take (hi - lo)

/-- The function `sleep`: the calling thread is suspended for `seconds * 2`
seconds; the event records the argument. -/
@[reducible] def sleep (seconds : Int) (t : Trace) : Trace :=
  t ++ [Event.sleep seconds]

/-- The function `updateStatusWithMediaID`. -/
def updateStatusWithMediaID (twitter : Twitter) (text : String) (mediaID : Nat)
    (t : Trace) : Option GoError × Trace :=
  let req := Request.updateStatus text mediaID
  match twitter.client.Do t req with
  | .error err => (some err, t ++ [Event.request req])
  | .ok _ => (none, t ++ [Event.request req])

/-- The loop of `mediaAppend`, entered with loop variable `s`.  The products
`s * step` and `(s + 1) * step` stay below `len(media) + step`, within Go's
`int` for every slice that can exist, so they are taken in `Nat`. -/
def mediaAppendLoop (twitter : Twitter) (mediaID : Nat) (media : List UInt8)
    (s : Nat) (t : Trace) : Option GoError × Trace :=
  if s * step < media.length then
    let rangeBegining := s * step
    let rangeEnd := if (s + 1) * step > media.length then media.length else (s + 1) * step
    let req := Request.append mediaID s (slice media rangeBegining rangeEnd)
    match twitter.client.Do t req with
    | .error err => (some err, t ++ [Event.request req])
    | .ok res =>
      match res.readErr with
      | some err => (some err, t ++ [Event.request req])
      | none => mediaAppendLoop twitter mediaID media (s + 1) (t ++ [Event.request req])
  else
    (none, t)
termination_by media.length - s * step
decreasing_by
  simp only [step] at *
  omega

/-- The function `mediaAppend`. -/
def mediaAppend (twitter : Twitter) (mediaID : Nat) (media : List UInt8)
    (t : Trace) : Option GoError × Trace :=
  mediaAppendLoop twitter mediaID media 0 t

/-- The function `mediaInit`; like the source it returns the pair
`(mediaID, err)`, with `mediaID` zero on every error path. -/
def mediaInit (js : Json) (twitter : Twitter) (media : List UInt8)
    (t : Trace) : (Nat × Option GoError) × Trace :=
  let mediaID : Nat := 0
  let req := Request.init media.length
  match twitter.client.Do t req with
  | .error err => ((mediaID, some err), t ++ [Event.request req])
  | .ok res =>
    match res.readErr with
    | some err => ((mediaID, some err), t ++ [Event.request req])
    | none =>
      match js.unmarshalInit res.body with
      | .error err => ((mediaID, some err), t ++ [Event.request req])
      | .ok initResponse => ((initResponse.MediaID, none), t ++ [Event.request req])

/-- The function `checkStatus`. -/
def checkStatus (js : Json) (twitter : Twitter) (mediaID : Nat) (state : String)
    (checkAfterSeconds : Int) (attempts : Int) (t : Trace) : Option GoError × Trace :=
  if state = "succeeded" then
    (none, t)
  else if state = "failed" then
    (some (GoError.new "Failed response"), t)
  else if attempts > 3 then
    (some (GoError.new "Max attempts reached"), t)
  else
    let attempts1 := attempts + 1
    let t1 := sleep checkAfterSeconds t
    let req := Request.status mediaID
    match twitter.client.Do t1 req with
    | .error err => (some err, t1 ++ [Event.request req])
    | .ok res =>
      match res.readErr with
      | some err => (some err, t1 ++ [Event.request req])
      | none =>
        match js.unmarshalStatus res.body with
        | .error err => (some err, t1 ++ [Event.request req])
        | .ok statusCheck =>
          if statusCheck.ProcessingInfo.State = "" then
            (some (GoError.new res.body), t1 ++ [Event.request req])
          else
            checkStatus js twitter mediaID statusCheck.ProcessingInfo.State
              statusCheck.ProcessingInfo.CheckAfterSeconds attempts1
              (t1 ++ [Event.request req])
termination_by (4 - attempts).toNat
decreasing_by
  omega

/-- The function `mediaFinilize`.  The error of `ioutil.ReadAll` is overwritten
by the result of `json.Unmarshal` on the bytes that were read. -/
def mediaFinilize (js : Json) (twitter : Twitter) (mediaID : Nat)
    (t : Trace) : Option GoError × Trace :=
  let req := Request.finalize mediaID
  match twitter.client.Do t req with
  | .error err => (some err, t ++ [Event.request req])
  | .ok res =>
    match js.unmarshalStatus res.body with
    | .error err => (some err, t ++ [Event.request req])
    | .ok statusResponse =>
      checkStatus js twitter mediaID statusResponse.ProcessingInfo.State
        statusResponse.ProcessingInfo.CheckAfterSeconds 0 (t ++ [Event.request req])

/-- The function `UpdateStatusWithVideo`.  The variable `err` of the last
`return err` is the one bound by the call of `mediaInit`: the two `err` of the
`if err := ...` statements are local to those statements. -/
def UpdateStatusWithVideo (js : Json) (twitter : Twitter) (status : String)
    (media : List UInt8) (t : Trace) : Option GoError × Trace :=
  match mediaInit js twitter media t with
  | ((mediaID, err), t1) =>
    if err ≠ none then
      (err, t1)
    else
      match mediaAppend twitter mediaID media t1 with
      | (some err2, t2) => (some err2, t2)
      | (none, t2) =>
        match mediaFinilize js twitter mediaID t2 with
        | (some err3, t3) => (some err3, t3)
        | (none, t3) =>
          match updateStatusWithMediaID twitter status mediaID t3 with
          | (some _, t4) => (err, t4)
          | (none, t4) => (none, t4)

/-- Number of STATUS requests in a trace. -/
def statusCount : Trace → Nat
  | [] => 0
  | Event.request (Request.status _) :: t => statusCount t + 1
  | _ :: t => statusCount t

/-- Segments carried by the APPEND requests of a trace, in the order issued. -/
def appendSegments : Trace → List (List UInt8)
  | [] => []
  | Event.request (Request.append _ _ seg) :: t => seg :: appendSegments t
  | _ :: t => appendSegments t

/-- Phase of the protocol an event belongs to: Init, Append, Finalize and
status poll (with its sleeps), Post. -/
def phase : Event → Nat
  | Event.request (Request.init _) => 0
  | Event.request (Request.append _ _ _) => 1
  | Event.request (Request.finalize _) => 2
  | Event.request (Request.status _) => 3
  | Event.sleep _ => 3
  | Event.request (Request.updateStatus _ _) => 4

/-- A decoder for examples: the body text is the processing state, the hint is
one second; for INIT the media id is the length of the body. -/
def exampleJson : Json where
  unmarshalInit := fun body => Except.ok ⟨body.length, body, 0⟩
  unmarshalStatus := fun body => Except.ok ⟨0, "", "", 0, 0, ⟨1, body⟩⟩

/-- A client for examples that answers every request with the same body. -/
def constantClient (body : String) : Twitter where
  client := ⟨fun _ _ => Except.ok ⟨body, none⟩⟩

/-- A client for examples whose STATUS answers follow a script: `in_progress`
while fewer than two STATUS requests were issued before, then `succeeded`. -/
def scriptedClient : Twitter where
  client := ⟨fun t r =>
    match r with
    | Request.status _ =>
      if statusCount t < 2 then Except.ok ⟨"in_progress", none⟩
      else Except.ok ⟨"succeeded", none⟩
    | _ => Except.ok ⟨"pending", none⟩⟩

/-- A client for examples on which the status update fails in transport and
every other request is answered with `succeeded`. -/
def postFailsClient : Twitter where
  client := ⟨fun _ r =>
    match r with
    | Request.updateStatus _ _ => Except.error (GoError.external 1)
    | _ => Except.ok ⟨"succeeded", none⟩⟩

/-- A decoder for examples: every STATUS or FINALIZE body decodes like a JSON
object without `processing_info`, leaving Go's zero values in that field. -/
def missingInfoJson : Json where
  unmarshalInit := fun body => Except.ok ⟨7, body, 0⟩
  unmarshalStatus := fun _ => Except.ok ⟨7, "7", "", 0, 0, ⟨0, ""⟩⟩

/-! ## Lemmas on the status poll -/

theorem statusCount_append (a b : Trace) :
    statusCount (a ++ b) = statusCount a + statusCount b := by
  induction a with
  | nil => simp [statusCount]
  | cons e a ih =>
    cases e with
    | sleep n => simp [statusCount, ih]
    | request r => cases r <;> simp [statusCount, ih]; omega

/-- One round of the poll: a non-terminal state with attempts left, answered by
a STATUS response that decodes to a non-empty state. -/
theorem checkStatus_round (js : Json) (twitter : Twitter) (mediaID : Nat)
    (state : String) (c a : Int) (t : Trace) (res : Response)
    (info : mediaStatusResponse)
    (h1 : state ≠ "succeeded") (h2 : state ≠ "failed") (h3 : a ≤ 3)
    (hdo : twitter.client.Do (t ++ [Event.sleep c]) (Request.status mediaID) = Except.ok res)
    (hrd : res.readErr = none) (hjs : js.unmarshalStatus res.body = Except.ok info)
    (hne : info.ProcessingInfo.State ≠ "") :
    checkStatus js twitter mediaID state c a t =
      checkStatus js twitter mediaID info.ProcessingInfo.State
        info.ProcessingInfo.CheckAfterSeconds (a + 1)
        (t ++ [Event.sleep c, Event.request (Request.status mediaID)]) := by
  rw [checkStatus]
  have h3 : ¬ a > 3 := by omega
  simp [h1, h2, h3, hdo, hrd, hjs, hne]

/-- Every event a poll adds is a sleep or a STATUS request for the same media,
and the number of STATUS requests is bounded by the attempts left. -/
theorem checkStatus_events (js : Json) (twitter : Twitter) (mediaID : Nat)
    (state : String) (c a : Int) (t : Trace) :
    ∃ new, (checkStatus js twitter mediaID state c a t).2 = t ++ new ∧
      statusCount new ≤ (4 - a).toNat ∧
      ∀ ev ∈ new, (∃ n, ev = Event.sleep n) ∨ ev = Event.request (Request.status mediaID) := by
  induction state, c, a, t using checkStatus.induct js twitter mediaID with
  | case1 c a t => exact ⟨[], by rw [checkStatus]; simp, by simp [statusCount], by simp⟩
  | case2 c a t h => exact ⟨[], by rw [checkStatus]; simp, by simp [statusCount], by simp⟩
  | case3 state c a t h1 h2 h3 =>
    exact ⟨[], by rw [checkStatus]; simp [h1, h2, h3], by simp [statusCount], by simp⟩
  | case4 state c a t h1 h2 h3 t1 req err hdo =>
    refine ⟨[Event.sleep c, Event.request (Request.status mediaID)], ?_, ?_, ?_⟩
    · rw [checkStatus]; simp [h1, h2, h3, hdo, t1, req]
    · simp [statusCount]; omega
    · simp
  | case5 state c a t h1 h2 h3 t1 req res hdo err hrd =>
    refine ⟨[Event.sleep c, Event.request (Request.status mediaID)], ?_, ?_, ?_⟩
    · rw [checkStatus]; simp [h1, h2, h3, hdo, hrd, t1, req]
    · simp [statusCount]; omega
    · simp
  | case6 state c a t h1 h2 h3 t1 req res hdo hrd err hjs =>
    refine ⟨[Event.sleep c, Event.request (Request.status mediaID)], ?_, ?_, ?_⟩
    · rw [checkStatus]; simp [h1, h2, h3, hdo, hrd, hjs, t1, req]
    · simp [statusCount]; omega
    · simp
  | case7 state c a t h1 h2 h3 t1 req res hdo hrd info hjs hem =>
    refine ⟨[Event.sleep c, Event.request (Request.status mediaID)], ?_, ?_, ?_⟩
    · rw [checkStatus]; simp [h1, h2, h3, hdo, hrd, hjs, hem, t1, req]
    · simp [statusCount]; omega
    · simp
  | case8 state c a t h1 h2 h3 a1 t1 req res hdo hrd info hjs hne ih =>
    obtain ⟨new, hnew, hcnt, hev⟩ := ih
    refine ⟨[Event.sleep c, Event.request (Request.status mediaID)] ++ new, ?_, ?_, ?_⟩
    · rw [checkStatus_round js twitter mediaID state c a t res info h1 h2 (by omega) hdo hrd hjs hne]
      simp only [t1, req, a1, List.append_assoc, List.singleton_append] at hnew
      simpa using hnew
    · rw [statusCount_append]
      simp only [a1] at hcnt
      simp [statusCount]; omega
    · intro ev hev2
      rcases List.mem_append.1 hev2 with h | h
      · simp at h; rcases h with h | h
        · exact Or.inl ⟨c, h⟩
        · exact Or.inr h
      · exact hev ev h

/-- With a server whose STATUS answers always decode to `in_progress`, a poll
entered with `4 - k` attempts counted fails with the max-attempts error after
exactly `k` STATUS requests. -/
theorem checkStatus_in_progress_rounds (js : Json) (twitter : Twitter) (mediaID : Nat)
    (hst : ∀ t1, ∃ res info, twitter.client.Do t1 (Request.status mediaID) = Except.ok res ∧
      res.readErr = none ∧ js.unmarshalStatus res.body = Except.ok info ∧
      info.ProcessingInfo.State = "in_progress")
    (k : Nat) : ∀ (c : Int) (t : Trace), ∃ new,
      checkStatus js twitter mediaID "in_progress" c (4 - (k : Int)) t =
        (some (GoError.new "Max attempts reached"), t ++ new) ∧ statusCount new = k := by
  induction k with
  | zero =>
    intro c t
    refine ⟨[], ?_, by simp [statusCount]⟩
    rw [checkStatus]; simp
  | succ k ih =>
    intro c t
    obtain ⟨res, info, hdo, hrd, hjs, hstate⟩ := hst (t ++ [Event.sleep c])
    have hne : info.ProcessingInfo.State ≠ "" := by rw [hstate]; decide
    rw [checkStatus_round js twitter mediaID "in_progress" c _ t res info (by decide) (by decide)
      (by push_cast; omega) hdo hrd hjs hne, hstate]
    have harith : (4 : Int) - ((k + 1 : Nat) : Int) + 1 = 4 - (k : Int) := by push_cast; ring
    rw [harith]
    obtain ⟨new, hnew, hcnt⟩ := ih info.ProcessingInfo.CheckAfterSeconds
      (t ++ [Event.sleep c, Event.request (Request.status mediaID)])
    refine ⟨[Event.sleep c, Event.request (Request.status mediaID)] ++ new, ?_, ?_⟩
    · rw [hnew]; simp
    · rw [statusCount_append, hcnt]; simp [statusCount]; omega

/-! ## The status poll: claims -/

/-- C3: when the FINALIZE response and every STATUS response decode to state
`in_progress`, `mediaFinilize` (which enters the poll with attempt count 0)
returns the error "Max attempts reached", and after the FINALIZE request it
issues exactly four STATUS requests. -/
theorem mediaFinilize_in_progress_max_attempts (js : Json) (twitter : Twitter)
    (mediaID : Nat) (t : Trace)
    (hfin : ∃ res info, twitter.client.Do t (Request.finalize mediaID) = Except.ok res ∧
      js.unmarshalStatus res.body = Except.ok info ∧
      info.ProcessingInfo.State = "in_progress")
    (hst : ∀ t1, ∃ res info, twitter.client.Do t1 (Request.status mediaID) = Except.ok res ∧
      res.readErr = none ∧ js.unmarshalStatus res.body = Except.ok info ∧
      info.ProcessingInfo.State = "in_progress") :
    ∃ new, mediaFinilize js twitter mediaID t =
        (some (GoError.new "Max attempts reached"),
          t ++ Event.request (Request.finalize mediaID) :: new) ∧
      statusCount new = 4 := by
  obtain ⟨res, info, hdo, hjs, hstate⟩ := hfin
  obtain ⟨new, hnew, hcnt⟩ := checkStatus_in_progress_rounds js twitter mediaID hst 4
    info.ProcessingInfo.CheckAfterSeconds (t ++ [Event.request (Request.finalize mediaID)])
  refine ⟨new, ?_, hcnt⟩
  simp only [mediaFinilize, hdo, hjs, hstate]
  have h0 : (4 : Int) - ((4 : Nat) : Int) = 0 := by norm_num
  rw [h0] at hnew
  rw [hnew]; simp

/-- C3 witness: the client that answers every request with `in_progress`. -/
theorem mediaFinilize_in_progress_max_attempts_witness :
    ∃ new, mediaFinilize exampleJson (constantClient "in_progress") 7 [] =
        (some (GoError.new "Max attempts reached"),
          [] ++ Event.request (Request.finalize 7) :: new) ∧
      statusCount new = 4 :=
  mediaFinilize_in_progress_max_attempts exampleJson (constantClient "in_progress") 7 []
    ⟨⟨"in_progress", none⟩, ⟨0, "", "", 0, 0, ⟨1, "in_progress"⟩⟩, rfl, rfl, rfl⟩
    (fun _ => ⟨⟨"in_progress", none⟩, ⟨0, "", "", 0, 0, ⟨1, "in_progress"⟩⟩, rfl, rfl, rfl, rfl⟩)

/-- C4: `checkStatus` is a total function whose recursion descends on
`4 - attempts`; for every client and decoder the STATUS requests it issues
number at most `4 - attempts` (none when that is negative), so the poll
entered from `mediaFinilize` with attempt count 0 issues at most four. -/
theorem poll_bounded (js : Json) (twitter : Twitter) (mediaID : Nat) (t : Trace) :
    (∀ (state : String) (c a : Int), ∃ new,
      (checkStatus js twitter mediaID state c a t).2 = t ++ new ∧
        statusCount new ≤ (4 - a).toNat) ∧
    ∃ new, (mediaFinilize js twitter mediaID t).2 = t ++ new ∧ statusCount new ≤ 4 := by
  constructor
  · intro state c a
    obtain ⟨new, h1, h2, _⟩ := checkStatus_events js twitter mediaID state c a t
    exact ⟨new, h1, h2⟩
  · simp only [mediaFinilize]
    split
    · exact ⟨[Event.request (Request.finalize mediaID)], rfl, by simp [statusCount]⟩
    · split
      · exact ⟨[Event.request (Request.finalize mediaID)], rfl, by simp [statusCount]⟩
      · rename_i info _
        obtain ⟨new, h1, h2, _⟩ := checkStatus_events js twitter mediaID
          info.ProcessingInfo.State info.ProcessingInfo.CheckAfterSeconds 0
          (t ++ [Event.request (Request.finalize mediaID)])
        refine ⟨Event.request (Request.finalize mediaID) :: new, ?_, ?_⟩
        · rw [h1]; simp
        · simp [statusCount] at h2 ⊢; exact h2

/-- C5: when the FINALIZE response decodes to a non-empty state other than
`succeeded` and `failed`, the first two STATUS responses decode to
`in_progress` and the third to `succeeded`, `mediaFinilize` returns nil and
after the FINALIZE request issues exactly three STATUS requests. -/
theorem mediaFinilize_scripted_success (js : Json) (twitter : Twitter)
    (mediaID : Nat) (t : Trace)
    (hfin : ∃ res info, twitter.client.Do t (Request.finalize mediaID) = Except.ok res ∧
      js.unmarshalStatus res.body = Except.ok info ∧
      info.ProcessingInfo.State ≠ "succeeded" ∧ info.ProcessingInfo.State ≠ "failed" ∧
      info.ProcessingInfo.State ≠ "")
    (hfirst : ∀ t1, statusCount t1 < statusCount t + 2 →
      ∃ res info, twitter.client.Do t1 (Request.status mediaID) = Except.ok res ∧
        res.readErr = none ∧ js.unmarshalStatus res.body = Except.ok info ∧
        info.ProcessingInfo.State = "in_progress")
    (hthird : ∀ t1, statusCount t1 = statusCount t + 2 →
      ∃ res info, twitter.client.Do t1 (Request.status mediaID) = Except.ok res ∧
        res.readErr = none ∧ js.unmarshalStatus res.body = Except.ok info ∧
        info.ProcessingInfo.State = "succeeded") :
    ∃ new, mediaFinilize js twitter mediaID t =
        (none, t ++ Event.request (Request.finalize mediaID) :: new) ∧
      statusCount new = 3 := by
  obtain ⟨res0, info0, hdo0, hjs0, hs1, hs2, _⟩ := hfin
  obtain ⟨res1, info1, hdo1, hrd1, hjs1, hst1⟩ := hfirst
    (t ++ [Event.request (Request.finalize mediaID)] ++
      [Event.sleep info0.ProcessingInfo.CheckAfterSeconds])
    (by simp [statusCount_append, statusCount])
  obtain ⟨res2, info2, hdo2, hrd2, hjs2, hst2⟩ := hfirst
    (t ++ [Event.request (Request.finalize mediaID)] ++
      [Event.sleep info0.ProcessingInfo.CheckAfterSeconds,
        Event.request (Request.status mediaID)] ++
      [Event.sleep info1.ProcessingInfo.CheckAfterSeconds])
    (by simp [statusCount_append, statusCount])
  obtain ⟨res3, info3, hdo3, hrd3, hjs3, hst3⟩ := hthird
    (t ++ [Event.request (Request.finalize mediaID)] ++
      [Event.sleep info0.ProcessingInfo.CheckAfterSeconds,
        Event.request (Request.status mediaID)] ++
      [Event.sleep info1.ProcessingInfo.CheckAfterSeconds,
        Event.request (Request.status mediaID)] ++
      [Event.sleep info2.ProcessingInfo.CheckAfterSeconds])
    (by simp [statusCount_append, statusCount])
  refine ⟨[Event.sleep info0.ProcessingInfo.CheckAfterSeconds,
        Event.request (Request.status mediaID),
        Event.sleep info1.ProcessingInfo.CheckAfterSeconds,
        Event.request (Request.status mediaID),
        Event.sleep info2.ProcessingInfo.CheckAfterSeconds,
        Event.request (Request.status mediaID)], ?_, by simp [statusCount]⟩
  simp only [mediaFinilize, hdo0, hjs0]
  rw [checkStatus_round js twitter mediaID _ _ 0 _ res1 info1 hs1 hs2 (by decide) hdo1 hrd1 hjs1
    (by rw [hst1]; decide), hst1]
  rw [checkStatus_round js twitter mediaID _ _ (0 + 1) _ res2 info2 (by decide) (by decide)
    (by decide) hdo2 hrd2 hjs2 (by rw [hst2]; decide), hst2]
  rw [checkStatus_round js twitter mediaID _ _ (0 + 1 + 1) _ res3 info3 (by decide) (by decide)
    (by decide) hdo3 hrd3 hjs3 (by rw [hst3]; decide), hst3]
  rw [checkStatus]
  simp

/-- C5 witness: the scripted client, started on the empty trace. -/
theorem mediaFinilize_scripted_success_witness :
    ∃ new, mediaFinilize exampleJson scriptedClient 7 [] =
        (none, [] ++ Event.request (Request.finalize 7) :: new) ∧
      statusCount new = 3 :=
  mediaFinilize_scripted_success exampleJson scriptedClient 7 []
    ⟨⟨"pending", none⟩, ⟨0, "", "", 0, 0, ⟨1, "pending"⟩⟩, rfl, rfl,
      by decide, by decide, by decide⟩
    (fun t1 h => ⟨⟨"in_progress", none⟩, ⟨0, "", "", 0, 0, ⟨1, "in_progress"⟩⟩,
      by simp [statusCount] at h; simp [scriptedClient, h], rfl, rfl, rfl⟩)
    (fun t1 h => ⟨⟨"succeeded", none⟩, ⟨0, "", "", 0, 0, ⟨1, "succeeded"⟩⟩,
      by simp [statusCount] at h; simp [scriptedClient, h], rfl, rfl, rfl⟩)

/-- C6: handed the state `failed`, `checkStatus` returns the error
"Failed response" and leaves the trace as it was (no sleep, no request), for
every media id, hint and attempt count. -/
theorem checkStatus_failed_immediately (js : Json) (twitter : Twitter) (mediaID : Nat)
    (checkAfterSeconds attempts : Int) (t : Trace) :
    checkStatus js twitter mediaID "failed" checkAfterSeconds attempts t =
      (some (GoError.new "Failed response"), t) := by
  rw [checkStatus]; simp

/-- C7 as stated fails: with attempt count 4 and state `succeeded`,
`checkStatus` returns nil, not the max-attempts error. -/
theorem checkStatus_succeeded_past_max_attempts :
    (4 : Int) > 3 ∧
      checkStatus exampleJson (constantClient "in_progress") 7 "succeeded" 1 4 [] = (none, []) ∧
      checkStatus exampleJson (constantClient "in_progress") 7 "succeeded" 1 4 [] ≠
        (some (GoError.new "Max attempts reached"), []) := by
  refine ⟨by decide, ?_, ?_⟩
  · rw [checkStatus]; simp
  · rw [checkStatus]; simp

/-- C7 amended: the terminal states are examined first.  For a state that is
neither `succeeded` nor `failed`, an attempt count above 3 makes `checkStatus`
return "Max attempts reached" with the trace unchanged (no STATUS request);
for every attempt count, state `succeeded` returns nil and state `failed`
returns "Failed response", both with the trace unchanged. -/
theorem checkStatus_max_attempts (js : Json) (twitter : Twitter) (mediaID : Nat)
    (checkAfterSeconds attempts : Int) (t : Trace) :
    (∀ state : String, state ≠ "succeeded" → state ≠ "failed" → attempts > 3 →
      checkStatus js twitter mediaID state checkAfterSeconds attempts t =
        (some (GoError.new "Max attempts reached"), t)) ∧
    checkStatus js twitter mediaID "succeeded" checkAfterSeconds attempts t = (none, t) ∧
    checkStatus js twitter mediaID "failed" checkAfterSeconds attempts t =
      (some (GoError.new "Failed response"), t) := by
  refine ⟨fun state h1 h2 h3 => ?_, ?_, ?_⟩
  · rw [checkStatus]; simp [h1, h2, h3]
  · rw [checkStatus]; simp
  · rw [checkStatus]; simp

/-- C7 witness: attempt count 4 with the states `in_progress`, `succeeded` and
`failed`. -/
theorem checkStatus_max_attempts_witness :
    checkStatus exampleJson (constantClient "in_progress") 7 "in_progress" 1 4 [] =
        (some (GoError.new "Max attempts reached"), []) ∧
      checkStatus exampleJson (constantClient "in_progress") 7 "succeeded" 1 4 [] =
        (none, []) ∧
      checkStatus exampleJson (constantClient "in_progress") 7 "failed" 1 4 [] =
        (some (GoError.new "Failed response"), []) :=
  ⟨(checkStatus_max_attempts exampleJson (constantClient "in_progress") 7 1 4 []).1
      "in_progress" (by decide) (by decide) (by decide),
    (checkStatus_max_attempts exampleJson (constantClient "in_progress") 7 1 4 []).2⟩

/-- C8 at the failing input: a FINALIZE response that decodes without
`processing_info` (empty state, hint 0) is not rejected; `mediaFinilize` sleeps
and issues a STATUS request, and only the empty state of that STATUS response
ends the poll with an error carrying the body. -/
theorem mediaFinilize_empty_state_polls :
    mediaFinilize missingInfoJson (constantClient "media_id 7") 7 [] =
      (some (GoError.new "media_id 7"),
        [Event.request (Request.finalize 7), Event.sleep 0,
          Event.request (Request.status 7)]) := by
  simp only [mediaFinilize, constantClient, missingInfoJson]
  rw [checkStatus]
  simp

/-! ## Lemmas on the segmented upload -/

/-- The request the loop builds in round `i`. -/
theorem slice_round (media : List UInt8) (i : Nat) :
    slice media (i * step)
        (if (i + 1) * step > media.length then media.length else (i + 1) * step) =
      (media.drop (i * step)).take step := by
  unfold slice
  rw [List.take_eq_take]
  simp only [List.length_drop]
  split <;> simp only [step] at * <;> omega

theorem loop_rounds_iff (n s : Nat) : s * step < n ↔ s < (n + step - 1) / step := by
  simp only [step]; omega

/-- When no APPEND request fails, the loop entered at `s` issues one request
per remaining segment, in ascending order of the index. -/
theorem mediaAppendLoop_ok (twitter : Twitter) (mediaID : Nat) (media : List UInt8)
    (hok : ∀ t1 i seg, ∃ res, twitter.client.Do t1 (Request.append mediaID i seg) = Except.ok res ∧
      res.readErr = none) (k : Nat) :
    ∀ (s : Nat) (t : Trace), (media.length + step - 1) / step - s = k →
      mediaAppendLoop twitter mediaID media s t =
        (none, t ++ (List.range k).map (fun j => Event.request
          (Request.append mediaID (s + j) ((media.drop ((s + j) * step)).take step)))) := by
  induction k with
  | zero =>
    intro s t hk
    rw [mediaAppendLoop]
    have : ¬ s * step < media.length := by rw [loop_rounds_iff]; omega
    simp [this]
  | succ k ih =>
    intro s t hk
    rw [mediaAppendLoop]
    have hlt : s * step < media.length := by rw [loop_rounds_iff]; omega
    obtain ⟨res, hdo, hrd⟩ := hok t s ((media.drop (s * step)).take step)
    simp only [hlt, if_true, slice_round, hdo, hrd]
    rw [ih (s + 1) _ (by omega), List.range_succ_eq_map]
    simp [List.map_map, Function.comp_def, Nat.add_assoc, Nat.add_comm 1]

theorem appendSegments_map (mediaID : Nat) (f : Nat → Nat) (g : Nat → List UInt8)
    (l : List Nat) :
    appendSegments (l.map (fun j => Event.request (Request.append mediaID (f j) (g j)))) =
      l.map g := by
  induction l with
  | nil => simp [appendSegments]
  | cons a l ih => simp [appendSegments, ih]

theorem flatten_chunks (media : List UInt8) (k : Nat) : ∀ s : Nat,
    ((List.range k).map (fun j => (media.drop ((s + j) * step)).take step)).flatten =
      (media.drop (s * step)).take (k * step) := by
  induction k with
  | zero => intro s; simp
  | succ k ih =>
    intro s
    rw [List.range_succ_eq_map]
    simp only [List.map_cons, List.map_map, List.flatten_cons, Function.comp_def, Nat.add_zero]
    have h := ih (s + 1)
    simp only [Nat.add_assoc, Nat.add_comm 1] at h
    simp only [Nat.succ_eq_add_one, Nat.add_assoc, Nat.add_comm 1, h]
    rw [Nat.add_mul k 1 step, Nat.one_mul, Nat.add_comm (k * step) step, List.take_add,
      List.drop_drop, Nat.add_mul s 1 step, Nat.one_mul, Nat.add_comm (s * step) step]

theorem ceil_div_step (n : Nat) : ⌈(n : ℚ) / (step : ℚ)⌉₊ = (n + step - 1) / step := by
  have hpos : (0 : ℚ) < (step : ℚ) := by simp [step]
  by_cases h0 : (n + step - 1) / step = 0
  · have hn : n = 0 := by simp only [step] at h0; omega
    subst hn
    simp only [Nat.zero_add] at h0
    simp [h0]
  · rw [Nat.ceil_eq_iff h0]
    constructor
    · rw [lt_div_iff₀ hpos]
      have : ((n + step - 1) / step - 1) * step < n := by simp only [step] at *; omega
      exact_mod_cast this
    · rw [div_le_iff₀ hpos]
      have : n ≤ (n + step - 1) / step * step := by simp only [step] at *; omega
      exact_mod_cast this

/-- Shape of the trace of `mediaAppend` when no APPEND request fails. -/
theorem mediaAppend_ok (twitter : Twitter) (mediaID : Nat) (media : List UInt8) (t : Trace)
    (hok : ∀ t1 i seg, ∃ res, twitter.client.Do t1 (Request.append mediaID i seg) = Except.ok res ∧
      res.readErr = none) :
    mediaAppend twitter mediaID media t =
      (none, t ++ (List.range ((media.length + step - 1) / step)).map (fun j => Event.request
        (Request.append mediaID j ((media.drop (j * step)).take step)))) := by
  unfold mediaAppend
  rw [mediaAppendLoop_ok twitter mediaID media hok ((media.length + step - 1) / step) 0 t
    (Nat.sub_zero _)]
  simp

/-! ## The segmented upload: claims -/

/-- C1: when no APPEND request fails, `mediaAppend` returns nil and adds to the
trace exactly `ceil(N / step)` events, `N` the payload length and `step` equal to
`500 * 1024`; the event at position `i` is an APPEND request with
`segment_index` equal to `i` and the given media id; for `N = 0` nothing is
added. -/
theorem mediaAppend_request_count_and_indices (twitter : Twitter) (mediaID : Nat)
    (media : List UInt8) (t : Trace)
    (hok : ∀ t1 i seg, ∃ res, twitter.client.Do t1 (Request.append mediaID i seg) = Except.ok res ∧
      res.readErr = none) :
    ∃ new, mediaAppend twitter mediaID media t = (none, t ++ new) ∧
      new.length = ⌈(media.length : ℚ) / (step : ℚ)⌉₊ ∧
      (∀ i, i < new.length →
        ∃ seg, new[i]? = some (Event.request (Request.append mediaID i seg))) ∧
      (media.length = 0 → new = []) := by
  refine ⟨_, mediaAppend_ok twitter mediaID media t hok, ?_, ?_, ?_⟩
  · rw [ceil_div_step]; simp
  · intro i hi
    simp only [List.length_map, List.length_range] at hi
    exact ⟨(media.drop (i * step)).take step, by simp [hi]⟩
  · intro h0
    have : (media.length + step - 1) / step = 0 := by simp only [step] at *; omega
    simp [this]

/-- C1 witness: a three-byte payload on a client that never fails. -/
theorem mediaAppend_request_count_and_indices_witness :
    ∃ new, mediaAppend (constantClient "ok") 7 [1, 2, 3] [] = (none, [] ++ new) ∧
      new.length = ⌈(([1, 2, 3] : List UInt8).length : ℚ) / (step : ℚ)⌉₊ ∧
      (∀ i, i < new.length → ∃ seg, new[i]? = some (Event.request (Request.append 7 i seg))) ∧
      (([1, 2, 3] : List UInt8).length = 0 → new = []) :=
  mediaAppend_request_count_and_indices (constantClient "ok") 7 [1, 2, 3] []
    (fun _ _ _ => ⟨⟨"ok", none⟩, rfl, rfl⟩)

/-- C2: when no APPEND request fails, the segments submitted by `mediaAppend`,
in the order issued, are the byte ranges from `i * step` to
`min ((i + 1) * step) N` of the payload: each begins where the one before
ended, all but the last have `step` bytes, the last has between 1 and `step`
bytes, and their concatenation is the payload; a payload of 1200 KiB gives
segments of 500, 500 and 200 KiB. -/
theorem mediaAppend_segments_partition (twitter : Twitter) (mediaID : Nat)
    (media : List UInt8) (t : Trace)
    (hok : ∀ t1 i seg, ∃ res, twitter.client.Do t1 (Request.append mediaID i seg) = Except.ok res ∧
      res.readErr = none) :
    ∃ new, mediaAppend twitter mediaID media t = (none, t ++ new) ∧
      (appendSegments new).length = new.length ∧
      (appendSegments new).flatten = media ∧
      (∀ i, i < (appendSegments new).length →
        (appendSegments new)[i]? =
          some (slice media (i * step) (min ((i + 1) * step) media.length))) ∧
      (∀ i, i + 1 < (appendSegments new).length →
        ∃ seg, (appendSegments new)[i]? = some seg ∧ seg.length = step) ∧
      (∀ last, (appendSegments new).getLast? = some last →
        0 < last.length ∧ last.length ≤ step) ∧
      (media.length = 1200 * 1024 →
        (appendSegments new).map List.length = [500 * 1024, 500 * 1024, 200 * 1024]) := by
  refine ⟨_, mediaAppend_ok twitter mediaID media t hok, ?_⟩
  rw [appendSegments_map mediaID (fun j => j) (fun j => (media.drop (j * step)).take step)]
  refine ⟨by simp, ?_, ?_, ?_, ?_, ?_⟩
  · have h := flatten_chunks media ((media.length + step - 1) / step) 0
    simp only [Nat.zero_add, Nat.zero_mul, List.drop_zero] at h
    rw [h]
    apply List.take_of_length_le
    simp only [step]; omega
  · intro i hi
    simp only [List.length_map, List.length_range] at hi
    have hmin : min ((i + 1) * step) media.length =
        if (i + 1) * step > media.length then media.length else (i + 1) * step := by
      split <;> omega
    rw [hmin, slice_round]
    simp [hi]
  · intro i hi
    simp only [List.length_map, List.length_range] at hi
    refine ⟨(media.drop (i * step)).take step, by simp [Nat.lt_of_succ_lt hi], ?_⟩
    simp only [List.length_take, List.length_drop, step] at *
    omega
  · intro last hlast
    rw [List.getLast?_eq_getElem?] at hlast
    simp only [List.length_map, List.length_range] at hlast
    by_cases hc : (media.length + step - 1) / step = 0
    · simp [hc] at hlast
    · have hlt : (media.length + step - 1) / step - 1 < (media.length + step - 1) / step :=
        Nat.sub_lt (Nat.pos_of_ne_zero hc) Nat.one_pos
      simp [hlt] at hlast
      subst hlast
      simp only [List.length_take, List.length_drop, step] at *
      omega
  · intro hN
    have hc : (media.length + step - 1) / step = 3 := by simp only [step] at *; omega
    rw [hc]
    simp [List.range_succ, List.length_take, List.length_drop, hN, step]

/-- C2 witness: a three-byte payload on a client that never fails. -/
theorem mediaAppend_segments_partition_witness :
    ∃ new, mediaAppend (constantClient "ok") 7 [1, 2, 3] [] = (none, [] ++ new) ∧
      (appendSegments new).length = new.length ∧
      (appendSegments new).flatten = [1, 2, 3] ∧
      (∀ i, i < (appendSegments new).length →
        (appendSegments new)[i]? =
          some (slice [1, 2, 3] (i * step) (min ((i + 1) * step) ([1, 2, 3] : List UInt8).length))) ∧
      (∀ i, i + 1 < (appendSegments new).length →
        ∃ seg, (appendSegments new)[i]? = some seg ∧ seg.length = step) ∧
      (∀ last, (appendSegments new).getLast? = some last →
        0 < last.length ∧ last.length ≤ step) ∧
      (([1, 2, 3] : List UInt8).length = 1200 * 1024 →
        (appendSegments new).map List.length = [500 * 1024, 500 * 1024, 200 * 1024]) :=
  mediaAppend_segments_partition (constantClient "ok") 7 [1, 2, 3] []
    (fun _ _ _ => ⟨⟨"ok", none⟩, rfl, rfl⟩)

/-! ## Lemmas on the sequence of phases -/

theorem mediaInit_trace (js : Json) (twitter : Twitter) (media : List UInt8) (t : Trace) :
    (mediaInit js twitter media t).2 = t ++ [Event.request (Request.init media.length)] := by
  simp only [mediaInit]
  split
  · rfl
  · split
    · rfl
    · split <;> rfl

/-- Whatever the client answers, the loop adds only APPEND requests for the
given media id. -/
theorem mediaAppendLoop_events (twitter : Twitter) (mediaID : Nat) (media : List UInt8)
    (k : Nat) : ∀ (s : Nat) (t : Trace), (media.length + step - 1) / step - s = k →
    ∃ new, (mediaAppendLoop twitter mediaID media s t).2 = t ++ new ∧
      ∀ ev ∈ new, ∃ i seg, ev = Event.request (Request.append mediaID i seg) := by
  induction k with
  | zero =>
    intro s t hk
    have : ¬ s * step < media.length := by rw [loop_rounds_iff]; omega
    refine ⟨[], ?_, by simp⟩
    rw [mediaAppendLoop]; simp [this]
  | succ k ih =>
    intro s t hk
    have hlt : s * step < media.length := by rw [loop_rounds_iff]; omega
    rw [mediaAppendLoop]
    simp only [hlt, if_true, slice_round]
    split
    · exact ⟨[_], rfl, fun ev hev => ⟨s, _, List.mem_singleton.1 hev⟩⟩
    · split
      · exact ⟨[_], rfl, fun ev hev => ⟨s, _, List.mem_singleton.1 hev⟩⟩
      · obtain ⟨new, hnew, hev⟩ := ih (s + 1)
          (t ++ [Event.request (Request.append mediaID s ((media.drop (s * step)).take step))])
          (by omega)
        refine ⟨Event.request (Request.append mediaID s ((media.drop (s * step)).take step))
          :: new, by rw [hnew]; simp, ?_⟩
        intro ev hev2
        rcases List.mem_cons.1 hev2 with h | h
        · exact ⟨s, _, h⟩
        · exact hev ev h

theorem mediaAppend_events (twitter : Twitter) (mediaID : Nat) (media : List UInt8)
    (t : Trace) :
    ∃ new, (mediaAppend twitter mediaID media t).2 = t ++ new ∧
      ∀ ev ∈ new, ∃ i seg, ev = Event.request (Request.append mediaID i seg) :=
  mediaAppendLoop_events twitter mediaID media _ 0 t rfl

/-- Whatever the client answers, `mediaFinilize` adds the FINALIZE request
followed only by sleeps and STATUS requests for the given media id. -/
theorem mediaFinilize_events (js : Json) (twitter : Twitter) (mediaID : Nat) (t : Trace) :
    ∃ new, (mediaFinilize js twitter mediaID t).2 =
        t ++ Event.request (Request.finalize mediaID) :: new ∧
      ∀ ev ∈ new, (∃ n, ev = Event.sleep n) ∨ ev = Event.request (Request.status mediaID) := by
  simp only [mediaFinilize]
  split
  · exact ⟨[], rfl, by simp⟩
  · split
    · exact ⟨[], rfl, by simp⟩
    · rename_i info _
      obtain ⟨new, h1, _, h3⟩ := checkStatus_events js twitter mediaID
        info.ProcessingInfo.State info.ProcessingInfo.CheckAfterSeconds 0
        (t ++ [Event.request (Request.finalize mediaID)])
      exact ⟨new, by rw [h1]; simp, h3⟩

theorem phase_append_events (mediaID : Nat) (l : Trace)
    (h : ∀ ev ∈ l, ∃ i seg, ev = Event.request (Request.append mediaID i seg)) :
    ∀ ev ∈ l, phase ev = 1 := by
  intro ev hev
  obtain ⟨i, seg, rfl⟩ := h ev hev
  rfl

theorem phase_poll_events (mediaID : Nat) (l : Trace)
    (h : ∀ ev ∈ l, (∃ n, ev = Event.sleep n) ∨ ev = Event.request (Request.status mediaID)) :
    ∀ ev ∈ l, phase ev = 3 := by
  intro ev hev
  rcases h ev hev with ⟨n, rfl⟩ | rfl <;> rfl

theorem pairwise_same_phase (k : Nat) (l : Trace) (h : ∀ ev ∈ l, phase ev = k) :
    l.Pairwise (fun a b => phase a ≤ phase b) :=
  List.pairwise_of_forall_mem_list (fun a ha b hb => by rw [h a ha, h b hb])

theorem pairwise_phase_append (k : Nat) (l1 l2 : Trace)
    (h1 : l1.Pairwise (fun a b => phase a ≤ phase b))
    (h2 : l2.Pairwise (fun a b => phase a ≤ phase b))
    (hle : ∀ a ∈ l1, phase a ≤ k) (hge : ∀ b ∈ l2, k ≤ phase b) :
    (l1 ++ l2).Pairwise (fun a b => phase a ≤ phase b) :=
  List.pairwise_append.2 ⟨h1, h2, fun a ha b hb => Nat.le_trans (hle a ha) (hge b hb)⟩

/-- The events of the Init and Append phases are in phase order. -/
theorem init_append_sorted (mediaID n : Nat) (newA : Trace)
    (hA : ∀ ev ∈ newA, ∃ i seg, ev = Event.request (Request.append mediaID i seg)) :
    (Event.request (Request.init n) :: newA).Pairwise (fun a b => phase a ≤ phase b) ∧
      ∀ ev ∈ Event.request (Request.init n) :: newA, phase ev ≤ 1 := by
  have hpA := phase_append_events mediaID newA hA
  constructor
  · refine List.pairwise_cons.2 ⟨fun a ha => ?_, pairwise_same_phase 1 newA hpA⟩
    rw [hpA a ha]; simp [phase]
  · intro ev hev
    rcases List.mem_cons.1 hev with h | h
    · rw [h]; simp [phase]
    · rw [hpA ev h]

/-- The events of a FINALIZE request and its poll are in phase order. -/
theorem finalize_poll_sorted (mediaID : Nat) (newF : Trace)
    (hF : ∀ ev ∈ newF, (∃ n, ev = Event.sleep n) ∨
      ev = Event.request (Request.status mediaID)) :
    (Event.request (Request.finalize mediaID) :: newF).Pairwise
        (fun a b => phase a ≤ phase b) ∧
      ∀ ev ∈ Event.request (Request.finalize mediaID) :: newF, 2 ≤ phase ev ∧ phase ev ≤ 3 := by
  have hpF := phase_poll_events mediaID newF hF
  constructor
  · refine List.pairwise_cons.2 ⟨fun a ha => ?_, pairwise_same_phase 3 newF hpF⟩
    rw [hpF a ha]; simp [phase]
  · intro ev hev
    rcases List.mem_cons.1 hev with h | h
    · rw [h]; simp [phase]
    · rw [hpF ev h]; simp

/-! ## The sequence of phases: claims -/

/-- C9: when `mediaInit`, `mediaAppend` and `mediaFinilize` (with its status
poll) all return without error, `UpdateStatusWithVideo` returns nil for every
client, so also when `updateStatusWithMediaID` returns a transport error; the
status update is the last request issued. -/
theorem UpdateStatusWithVideo_post_best_effort (js : Json) (twitter : Twitter)
    (status : String) (media : List UInt8) (t : Trace) (mediaID : Nat) (t1 t2 t3 : Trace)
    (hinit : mediaInit js twitter media t = ((mediaID, none), t1))
    (happ : mediaAppend twitter mediaID media t1 = (none, t2))
    (hfin : mediaFinilize js twitter mediaID t2 = (none, t3)) :
    UpdateStatusWithVideo js twitter status media t =
      (none, t3 ++ [Event.request (Request.updateStatus status mediaID)]) := by
  simp only [UpdateStatusWithVideo, hinit, happ, hfin, updateStatusWithMediaID]
  cases twitter.client.Do t3 (Request.updateStatus status mediaID) <;> simp

/-- C9 witness: on `postFailsClient` the three upload phases succeed, the
status update fails in transport, and the whole operation returns nil. -/
theorem UpdateStatusWithVideo_post_best_effort_witness :
    (updateStatusWithMediaID postFailsClient "hello" 9
        [Event.request (Request.init 3), Event.request (Request.append 9 0 [1, 2, 3]),
          Event.request (Request.finalize 9)]).1 = some (GoError.external 1) ∧
      UpdateStatusWithVideo exampleJson postFailsClient "hello" [1, 2, 3] [] =
        (none, [Event.request (Request.init 3), Event.request (Request.append 9 0 [1, 2, 3]),
          Event.request (Request.finalize 9)] ++
          [Event.request (Request.updateStatus "hello" 9)]) :=
  ⟨rfl, UpdateStatusWithVideo_post_best_effort exampleJson postFailsClient "hello" [1, 2, 3] [] 9
    [Event.request (Request.init 3)]
    [Event.request (Request.init 3), Event.request (Request.append 9 0 [1, 2, 3])]
    [Event.request (Request.init 3), Event.request (Request.append 9 0 [1, 2, 3]),
      Event.request (Request.finalize 9)]
    (by simp [mediaInit, postFailsClient, exampleJson]; decide)
    (by
      unfold mediaAppend
      rw [mediaAppendLoop]
      simp only [postFailsClient]
      rw [mediaAppendLoop]
      simp [step, slice])
    (by
      simp only [mediaFinilize, postFailsClient, exampleJson]
      rw [checkStatus]
      simp)⟩

/-- C10: the events added by `UpdateStatusWithVideo` are in phase order (Init,
Append, Finalize and status poll, Post); an error of `mediaInit`, `mediaAppend`
or `mediaFinilize` is returned as it is, with the trace as that phase left it,
so with no event of a later phase; a status update is issued only after all
three returned nil, with the given text and the media id returned by
`mediaInit`. -/
theorem UpdateStatusWithVideo_phase_order_and_abort (js : Json) (twitter : Twitter)
    (status : String) (media : List UInt8) (t : Trace) :
    ∃ new, (UpdateStatusWithVideo js twitter status media t).2 = t ++ new ∧
      new.Pairwise (fun a b => phase a ≤ phase b) ∧
      (∀ mediaID e t1, mediaInit js twitter media t = ((mediaID, some e), t1) →
        UpdateStatusWithVideo js twitter status media t = (some e, t1) ∧
          ∀ ev ∈ new, phase ev ≤ 0) ∧
      (∀ mediaID t1, mediaInit js twitter media t = ((mediaID, none), t1) →
        (∀ e t2, mediaAppend twitter mediaID media t1 = (some e, t2) →
          UpdateStatusWithVideo js twitter status media t = (some e, t2) ∧
            ∀ ev ∈ new, phase ev ≤ 1) ∧
        (∀ t2, mediaAppend twitter mediaID media t1 = (none, t2) →
          (∀ e t3, mediaFinilize js twitter mediaID t2 = (some e, t3) →
            UpdateStatusWithVideo js twitter status media t = (some e, t3) ∧
              ∀ ev ∈ new, phase ev ≤ 3) ∧
          (∀ t3, mediaFinilize js twitter mediaID t2 = (none, t3) →
            (UpdateStatusWithVideo js twitter status media t).2 =
              t3 ++ [Event.request (Request.updateStatus status mediaID)]))) ∧
      (∀ text mediaID, Event.request (Request.updateStatus text mediaID) ∈ new →
        text = status ∧ ∃ t1 t2 t3,
          mediaInit js twitter media t = ((mediaID, none), t1) ∧
          mediaAppend twitter mediaID media t1 = (none, t2) ∧
          mediaFinilize js twitter mediaID t2 = (none, t3)) := by
  rcases hI : mediaInit js twitter media t with ⟨⟨id, err⟩, t1⟩
  have ht1 : t1 = t ++ [Event.request (Request.init media.length)] := by
    have h := mediaInit_trace js twitter media t
    rw [hI] at h; exact h
  cases err with
  | some e =>
    have hU : UpdateStatusWithVideo js twitter status media t = (some e, t1) := by
      simp [UpdateStatusWithVideo, hI]
    refine ⟨[Event.request (Request.init media.length)], by rw [hU, ht1],
      List.pairwise_singleton _ _, ?_, ?_, ?_⟩
    · intro id2 e2 t12 h
      cases h
      exact ⟨hU, fun ev hev => by rw [List.mem_singleton.1 hev]; simp [phase]⟩
    · intro id2 t12 h
      cases h
    · intro text id2 h
      simp at h
  | none =>
    rcases hA : mediaAppend twitter id media t1 with ⟨a, t2⟩
    obtain ⟨newA, hnA, hevA⟩ := mediaAppend_events twitter id media t1
    rw [hA] at hnA
    have ht2 : t2 = t ++ (Event.request (Request.init media.length) :: newA) := by
      rw [show t2 = t1 ++ newA from hnA, ht1]; simp
    obtain ⟨hsA, hleA⟩ := init_append_sorted id media.length newA hevA
    have hnoA : ∀ text id2, Event.request (Request.updateStatus text id2) ∉
        Event.request (Request.init media.length) :: newA := by
      intro text id2 hmem
      have := hleA _ hmem
      simp [phase] at this
    cases a with
    | some e =>
      have hU : UpdateStatusWithVideo js twitter status media t = (some e, t2) := by
        simp [UpdateStatusWithVideo, hI, hA]
      refine ⟨Event.request (Request.init media.length) :: newA, by rw [hU, ht2], hsA,
        ?_, ?_, ?_⟩
      · intro id2 e2 t12 h
        cases h
      · intro id2 t12 h
        cases h
        refine ⟨fun e2 t22 h2 => ?_, fun t22 h2 => ?_⟩
        · rw [hA] at h2
          cases h2
          exact ⟨hU, hleA⟩
        · rw [hA] at h2
          cases h2
      · intro text id2 h
        exact absurd h (hnoA text id2)
    | none =>
      rcases hF : mediaFinilize js twitter id t2 with ⟨f, t3⟩
      obtain ⟨newF, hnF, hevF⟩ := mediaFinilize_events js twitter id t2
      rw [hF] at hnF
      obtain ⟨hsF, hbF⟩ := finalize_poll_sorted id newF hevF
      have hs3 : ((Event.request (Request.init media.length) :: newA) ++
          (Event.request (Request.finalize id) :: newF)).Pairwise
          (fun a b => phase a ≤ phase b) :=
        pairwise_phase_append 1 _ _ hsA hsF hleA
          (fun b hb => Nat.le_trans (by decide) (hbF b hb).1)
      have hle3 : ∀ ev ∈ (Event.request (Request.init media.length) :: newA) ++
          (Event.request (Request.finalize id) :: newF), phase ev ≤ 3 := by
        intro ev hev
        rcases List.mem_append.1 hev with h | h
        · exact Nat.le_trans (hleA ev h) (by decide)
        · exact (hbF ev h).2
      have ht3 : t3 = t ++ ((Event.request (Request.init media.length) :: newA) ++
          (Event.request (Request.finalize id) :: newF)) := by
        rw [show t3 = t2 ++ Event.request (Request.finalize id) :: newF from hnF, ht2]; simp
      cases f with
      | some e =>
        have hU : UpdateStatusWithVideo js twitter status media t = (some e, t3) := by
          simp [UpdateStatusWithVideo, hI, hA, hF]
        refine ⟨_, by rw [hU, ht3], hs3, ?_, ?_, ?_⟩
        · intro id2 e2 t12 h
          cases h
        · intro id2 t12 h
          cases h
          refine ⟨fun e2 t22 h2 => ?_, fun t22 h2 => ?_⟩
          · rw [hA] at h2
            cases h2
          · rw [hA] at h2
            cases h2
            refine ⟨fun e3 t32 h3 => ?_, fun t32 h3 => ?_⟩
            · rw [hF] at h3
              cases h3
              exact ⟨hU, hle3⟩
            · rw [hF] at h3
              cases h3
        · intro text id2 h
          have := hle3 _ h
          simp [phase] at this
      | none =>
        have hU : UpdateStatusWithVideo js twitter status media t =
            (none, t3 ++ [Event.request (Request.updateStatus status id)]) := by
          simp only [UpdateStatusWithVideo, hI, hA, hF, updateStatusWithMediaID]
          cases twitter.client.Do t3 (Request.updateStatus status id) <;> simp
        refine ⟨((Event.request (Request.init media.length) :: newA) ++
            (Event.request (Request.finalize id) :: newF)) ++
            [Event.request (Request.updateStatus status id)], ?_, ?_, ?_, ?_, ?_⟩
        · rw [hU, ht3]; simp
        · exact pairwise_phase_append 3 _ _ hs3 (List.pairwise_singleton _ _) hle3
            (fun b hb => by rw [List.mem_singleton.1 hb]; simp [phase])
        · intro id2 e2 t12 h
          cases h
        · intro id2 t12 h
          cases h
          refine ⟨fun e2 t22 h2 => ?_, fun t22 h2 => ?_⟩
          · rw [hA] at h2
            cases h2
          · rw [hA] at h2
            cases h2
            refine ⟨fun e3 t32 h3 => ?_, fun t32 h3 => ?_⟩
            · rw [hF] at h3
              cases h3
            · rw [hF] at h3
              cases h3
              rw [hU]
        · intro text id2 h
          rcases List.mem_append.1 h with h | h
          · have := hle3 _ h
            simp [phase] at this
          · simp only [List.mem_singleton, Event.request.injEq,
              Request.updateStatus.injEq] at h
            obtain ⟨rfl, rfl⟩ := h
            exact ⟨rfl, t1, t2, t3, rfl, hA, hF⟩

/-- C10 witness: on a client whose every answer decodes to state `failed`, the
poll fails and no status update is issued. -/
theorem UpdateStatusWithVideo_phase_order_and_abort_witness :
    UpdateStatusWithVideo exampleJson (constantClient "failed") "hello" [1, 2, 3] [] =
        (some (GoError.new "Failed response"),
          [Event.request (Request.init 3), Event.request (Request.append 6 0 [1, 2, 3]),
            Event.request (Request.finalize 6)]) ∧
      ∃ new, (UpdateStatusWithVideo exampleJson (constantClient "failed") "hello"
          [1, 2, 3] []).2 = [] ++ new ∧
        new.Pairwise (fun a b => phase a ≤ phase b) ∧
        ∀ text mediaID, Event.request (Request.updateStatus text mediaID) ∈ new →
          text = "hello" := by
  obtain ⟨new, h1, h2, h3, h4, h5⟩ := UpdateStatusWithVideo_phase_order_and_abort exampleJson
    (constantClient "failed") "hello" [1, 2, 3] []
  have hI : mediaInit exampleJson (constantClient "failed") [1, 2, 3] [] =
      ((6, none), [Event.request (Request.init 3)]) := by
    simp [mediaInit, constantClient, exampleJson]; decide
  have hA : mediaAppend (constantClient "failed") 6 [1, 2, 3] [Event.request (Request.init 3)] =
      (none, [Event.request (Request.init 3), Event.request (Request.append 6 0 [1, 2, 3])]) := by
    unfold mediaAppend
    rw [mediaAppendLoop]
    simp only [constantClient]
    rw [mediaAppendLoop]
    simp [step, slice]
  have hF : mediaFinilize exampleJson (constantClient "failed") 6
      [Event.request (Request.init 3), Event.request (Request.append 6 0 [1, 2, 3])] =
      (some (GoError.new "Failed response"),
        [Event.request (Request.init 3), Event.request (Request.append 6 0 [1, 2, 3]),
          Event.request (Request.finalize 6)]) := by
    simp only [mediaFinilize, constantClient, exampleJson]
    rw [checkStatus]
    simp
  exact ⟨(((h4 6 _ hI).2 _ hA).1 _ _ hF).1, new, h1, h2, fun text id h => (h5 text id h).1⟩

end TwitterVideo
